import Mathlib

/-!
Verification of the thujareader Document Normalization & Navigation Engine
against its natural-language specification.

The definitions below are a shallow embedding of the Go code in
src/internal/ui/model.go (position model, wrap engine, search engine) and
src/internal/reader/domain.go (data model).  Go `int` values are embedded as
Lean `Int`; rune sequences as `List Char`; Go strings (byte sequences) as
`List Nat` of UTF-8 bytes where byte-level behaviour matters.
-/

namespace Thuja

/-- Chapter from src/internal/reader/domain.go: index, title, start offset in
the linear text stream, and length. -/
structure Chapter where
  index : Int
  title : String
  offset : Int
  length : Int
deriving DecidableEq

/-- Book from src/internal/reader/domain.go (ID, metadata, ordered chapter
list, aggregate character count). -/
structure Book where
  id : String
  title : String
  author : String
  chapters : List Chapter
  totalCharacters : Int
deriving DecidableEq

/-- Position from src/internal/reader/domain.go: chapter-relative logical
location. -/
structure Position where
  chapterIndex : Int
  offsetInChapter : Int
deriving DecidableEq

/-- Default Chapter value, standing for Go's zero value when indexing. -/
def defaultChapter : Chapter := ⟨0, "", 0, 0⟩

/-- positionToAbsoluteOffset from src/internal/ui/model.go (lines 1476-1485):
a negative or out-of-range chapter index yields offset 0; otherwise the
chapter's offset plus the position's offsetInChapter, with no clamping of
offsetInChapter. -/
def positionToAbsoluteOffset (book : Book) (pos : Position) : Int :=
  if pos.chapterIndex < 0 ∨ (book.chapters.length : Int) ≤ pos.chapterIndex then 0
  else (book.chapters.getD pos.chapterIndex.toNat defaultChapter).offset + pos.offsetInChapter

/-- The linear scan inside absoluteOffsetToPosition: index of the first
chapter whose end (offset + length) lies strictly beyond the given offset. -/
def findChapterIdx : List Chapter → Int → Option Nat
  | [], _ => none
  | c :: cs, off =>
    if off < c.offset + c.length then some 0
    else (findChapterIdx cs off).map (fun i => i + 1)

/-- absoluteOffsetToPosition from src/internal/ui/model.go (lines 1489-1513):
offsets at or below 0 and empty chapter lists yield the zero position; the
containing chapter is the first one whose end exceeds the offset, defaulting
to chapter 0 when no chapter contains it.  The two clamp steps of the source
(offset below chapter start, negative offsetInChapter) are kept. -/
def absoluteOffsetToPosition (book : Book) (offset : Int) : Position :=
  if offset ≤ 0 then ⟨0, 0⟩
  else if book.chapters.isEmpty then ⟨0, 0⟩
  else
    let chapterIndex := (findChapterIdx book.chapters offset).getD 0
    let ch := book.chapters.getD chapterIndex defaultChapter
    let off2 := if offset < ch.offset then ch.offset else offset
    let offsetInChapter := if off2 - ch.offset < 0 then 0 else off2 - ch.offset
    ⟨(chapterIndex : Int), offsetInChapter⟩

/-- Modelled from the spec (section 4.5): the spec's wording of
positionToOffset, which clamps offsetInChapter into [0, chapter.length].
The source function positionToAbsoluteOffset performs no such clamping;
this definition exists only to compare the two. -/
def positionToOffsetClampedSpec (book : Book) (pos : Position) : Int :=
  if pos.chapterIndex < 0 ∨ (book.chapters.length : Int) ≤ pos.chapterIndex then 0
  else
    let ch := book.chapters.getD pos.chapterIndex.toNat defaultChapter
    ch.offset + min (max pos.offsetInChapter 0) ch.length

/-- Contiguity invariant of the data model (spec section 3): each chapter
starts where the previous one ended, the first at the given base offset. -/
def chaptersContiguousFrom (s : Int) : List Chapter → Prop
  | [] => True
  | c :: cs => c.offset = s ∧ chaptersContiguousFrom (s + c.length) cs

/-- End offset of the last chapter of a contiguous chain that starts at s. -/
def chaptersEnd (s : Int) : List Chapter → Int
  | [] => s
  | c :: cs => chaptersEnd (s + c.length) cs

/-- UTF-8 encoding of one code point, as Go's string([]rune) conversion
produces it. -/
def utf8EncodeChar (c : Char) : List Nat :=
  let n := c.toNat
  if n < 0x80 then [n]
  else if n < 0x800 then [0xC0 + n / 0x40, 0x80 + n % 0x40]
  else if n < 0x10000 then
    [0xE0 + n / 0x1000, 0x80 + n / 0x40 % 0x40, 0x80 + n % 0x40]
  else
    [0xF0 + n / 0x40000, 0x80 + n / 0x1000 % 0x40, 0x80 + n / 0x40 % 0x40, 0x80 + n % 0x40]

/-- UTF-8 byte sequence of a rune sequence, i.e. Go's string(textRunes). -/
def utf8Encode (s : List Char) : List Nat :=
  (s.map utf8EncodeChar).flatten

/-- Go's strings.Index: byte position of the first occurrence of needle in
haystack, none when absent.  An empty needle matches at position 0. -/
def strIndex : List Nat → List Nat → Option Nat
  | [], needle => if needle = [] then some 0 else none
  | h :: t, needle =>
    if needle.isPrefixOf (h :: t) then some 0
    else (strIndex t needle).map (fun i => i + 1)

/-- Search state of the Model (src/internal/ui/model.go lines 642-643):
the last search term and the offset of the last match (-1 when none). -/
structure SearchState where
  lastSearch : List Char
  lastSearchOffset : Int
deriving DecidableEq

/-- Outcome of one performSearch call, one constructor per setStatus branch
of the source. -/
inductive SearchResult where
  | emptyTerm : SearchResult
  | noMatches : SearchResult
  | noMore : SearchResult
  | found : Int → Position → SearchResult
deriving DecidableEq

/-- The status-bar wording attached by performSearch to each outcome. -/
def statusText : SearchResult → String
  | .emptyTerm => "Find: empty search term."
  | .noMatches => "Find: no matches."
  | .noMore => "Find: no more matches."
  | .found _ _ => "Find: match found."

/-- The state-reset step at the top of performSearch: a new term (or an
explicit reset) clears the match offset. -/
def resetSearchState (st : SearchState) (term : List Char) (newTerm : Bool) : SearchState :=
  if newTerm = true ∨ term ≠ st.lastSearch then ⟨term, -1⟩ else st

/-- performSearch from src/internal/ui/model.go (lines 1312-1348), for a
loaded book.  The source converts the cached runes to a Go string and runs
strings.Index over it, so scanning positions and the stored match offset are
measured in UTF-8 bytes; the resulting offset is then handed to
absoluteOffsetToPosition unchanged. -/
def performSearch (book : Book) (textRunes : List Char) (st : SearchState)
    (term : List Char) (newTerm : Bool) : SearchState × SearchResult :=
  if term = [] then (st, .emptyTerm)
  else
    let st1 := resetSearchState st term newTerm
    let bytes := utf8Encode textRunes
    let start := if st1.lastSearchOffset + 1 < 0 then 0 else st1.lastSearchOffset + 1
    if (bytes.length : Int) ≤ start then (st1, .noMore)
    else
      match strIndex (bytes.drop start.toNat) (utf8Encode term) with
      | none => (st1, if st1.lastSearchOffset = -1 then .noMatches else .noMore)
      | some idx =>
        let matchOffset := start + (idx : Int)
        (⟨st1.lastSearch, matchOffset⟩,
         .found matchOffset (absoluteOffsetToPosition book matchOffset))

/-- Effective display width of one rune in the wrap engine: the reported
width, with reports at or below 0 treated as 1. -/
def runeDisplayWidth (rw : Char → Int) (r : Char) : Nat :=
  if rw r ≤ 0 then 1 else (rw r).toNat

/-- Display width of a line: sum of the effective widths of its runes. -/
def displayWidth (rw : Char → Int) (line : List Char) : Nat :=
  (line.map (runeDisplayWidth rw)).sum

/-- Modelled from the spec (section 4.6 and glossary): the code-point
display-width function supplied by the external go-runewidth library, which
is not part of this repository.  Per the spec it accounts for double-width
glyphs: ASCII control code points report 0, printable ASCII reports 1, CJK
unified ideographs report 2; other code points are taken as width 1 here. -/
def runeWidthModel (c : Char) : Int :=
  if c.toNat < 0x20 then 0
  else if c.toNat < 0x7F then 1
  else if 0x4E00 ≤ c.toNat ∧ c.toNat ≤ 0x9FFF then 2
  else 1

/-- Loop state of reflowWrappedLines: accumulated lines and their starting
offsets, the pending line with its display width and starting offset, and
the rune offset of the scan. -/
structure WrapState where
  lines : List (List Char)
  offsets : List Nat
  lineRunes : List Char
  col : Nat
  lineStartOffset : Nat
  currentOffset : Nat
deriving DecidableEq

/-- The flushLine closure of reflowWrappedLines: append the pending line and
its starting offset to the output and reset the pending line. -/
def flushLine (st : WrapState) : WrapState :=
  { lines := st.lines ++ [st.lineRunes]
    offsets := st.offsets ++ [st.lineStartOffset]
    lineRunes := []
    col := 0
    lineStartOffset := 0
    currentOffset := st.currentOffset }

/-- One iteration of the rune loop of reflowWrappedLines: an explicit newline
always flushes; any other rune first flushes when it would overflow a
non-empty line, then is appended. -/
def wrapStep (innerWidth : Nat) (rw : Char → Int) (st : WrapState) (r : Char) : WrapState :=
  if r = '\n' then
    let st1 := flushLine st
    { st1 with currentOffset := st.currentOffset + 1, lineStartOffset := st.currentOffset + 1 }
  else
    let w := runeDisplayWidth rw r
    let st1 :=
      if 0 < st.col ∧ innerWidth < st.col + w then
        { flushLine st with lineStartOffset := st.currentOffset }
      else st
    { st1 with
        lineRunes := st1.lineRunes ++ [r]
        col := st1.col + w
        currentOffset := st1.currentOffset + 1 }

/-- Initial loop state of reflowWrappedLines. -/
def initWrapState : WrapState := ⟨[], [], [], 0, 0, 0⟩

/-- The epilogue of reflowWrappedLines: flush a pending non-empty last line,
then read off the accumulated lines and offsets. -/
def finishWrap (st : WrapState) : List (List Char) × List Nat :=
  if st.lineRunes = [] then (st.lines, st.offsets)
  else ((flushLine st).lines, (flushLine st).offsets)

/-- reflowWrappedLines from src/internal/ui/model.go (lines 1352-1422),
parameterized by the display-width function and taking the inner width
(max(0, window width - 2) in the source) directly.  Empty text or a
non-positive width yields no lines; otherwise the rune loop runs and a
pending non-empty last line is flushed. -/
def reflowWrappedLines (rw : Char → Int) (textRunes : List Char) (innerWidth : Nat) :
    List (List Char) × List Nat :=
  if textRunes = [] ∨ innerWidth = 0 then ([], [])
  else finishWrap (textRunes.foldl (wrapStep innerWidth rw) initWrapState)

/-- jumpToPosition from src/internal/ui/model.go (lines 1456-1472), reduced
to its effect on the top viewport line: with a non-empty wrapped-line offset
table it selects the first line whose starting offset is at or after the
target's absolute offset, and when no such line exists the loop leaves the
initial value 0. -/
def jumpToPosition (book : Book) (lineOffsets : List Int) (topLine : Nat) (pos : Position) : Nat :=
  if lineOffsets.isEmpty then topLine
  else
    (List.findIdx? (fun off => decide (positionToAbsoluteOffset book pos ≤ off)) lineOffsets).getD 0

/-- Loop invariant of the reflowWrappedLines rune loop, over the runes
consumed so far. -/
def WrapInv (W : Nat) (rw : Char → Int) (consumed : List Char) (st : WrapState) : Prop :=
  st.lines.flatten ++ st.lineRunes = consumed.filter (fun r => decide (r ≠ '\n'))
  ∧ st.offsets.length = st.lines.length
  ∧ List.Sorted (fun a b : Nat => a ≤ b) st.offsets
  ∧ (∀ x ∈ st.offsets, x ≤ st.lineStartOffset)
  ∧ st.lineStartOffset ≤ st.currentOffset
  ∧ st.currentOffset = consumed.length
  ∧ displayWidth rw st.lineRunes = st.col
  ∧ (st.col ≤ W ∨ st.lineRunes.length = 1)
  ∧ (∀ l ∈ st.lines, displayWidth rw l ≤ W ∨ l.length = 1)

/-- Sample two-chapter book satisfying the data-model invariants. -/
def sampleBook : Book := ⟨"b", "t", "a", [⟨0, "A", 0, 3⟩, ⟨1, "B", 3, 2⟩], 5⟩

/-- Sample single-chapter book of length 5. -/
def oneChapterBook : Book := ⟨"b1", "", "", [⟨0, "", 0, 5⟩], 5⟩

/-- Book with no chapters and no text. -/
def emptyBook : Book := ⟨"", "", "", [], 0⟩

/-- Single-chapter book over the four runes of the text used for the
byte-offset evaluation. -/
def accentBook : Book := ⟨"", "", "", [⟨0, "", 0, 4⟩], 4⟩

/-- Single-chapter book over the 22 runes of the search worked example. -/
def catBook : Book := ⟨"", "", "", [⟨0, "", 0, 22⟩], 22⟩

/-- The linear text of the search worked example. -/
def catText : List Char := "the cat sat on the mat".toList

/-- The search term of the worked example. -/
def catTerm : List Char := ['a', 't']

/-- First search of the worked example: fresh state. -/
def catS1 : SearchState × SearchResult :=
  performSearch catBook catText ⟨[], -1⟩ catTerm true

/-- Second search of the worked example, continuing from the first. -/
def catS2 : SearchState × SearchResult :=
  performSearch catBook catText catS1.1 catTerm false

/-- Third search of the worked example. -/
def catS3 : SearchState × SearchResult :=
  performSearch catBook catText catS2.1 catTerm false

/-- Fourth search of the worked example. -/
def catS4 : SearchState × SearchResult :=
  performSearch catBook catText catS3.1 catTerm false

/-- Helper: a contiguous chapter chain with nonnegative lengths never ends
before its base offset. -/
theorem chaptersEnd_ge (cs : List Chapter) :
    ∀ s : Int, (∀ c ∈ cs, 0 ≤ c.length) → s ≤ chaptersEnd s cs := by
  induction cs with
  | nil => intro s _; simp [chaptersEnd]
  | cons c cs ih =>
    intro s h
    have h1 : 0 ≤ c.length := h c (by simp)
    have h2 := ih (s + c.length) (fun x hx => h x (by simp [hx]))
    simp only [chaptersEnd]
    exact le_trans (by omega) h2

/-- Helper: an offset at or past the end of a contiguous chain with
nonnegative lengths is contained in no chapter of the chain. -/
theorem findChapterIdx_eq_none (cs : List Chapter) :
    ∀ s o : Int, chaptersContiguousFrom s cs → (∀ c ∈ cs, 0 ≤ c.length) →
      chaptersEnd s cs ≤ o → findChapterIdx cs o = none := by
  induction cs with
  | nil => intro s o _ _ _; rfl
  | cons c cs ih =>
    intro s o hc hl he
    obtain ⟨hoff, hc'⟩ := hc
    simp only [chaptersEnd] at he
    have hge : s + c.length ≤ chaptersEnd (s + c.length) cs :=
      chaptersEnd_ge cs (s + c.length) (fun x hx => hl x (by simp [hx]))
    have hnot : ¬ o < c.offset + c.length := by rw [hoff]; omega
    rw [findChapterIdx, if_neg hnot,
      ih (s + c.length) o hc' (fun x hx => hl x (by simp [hx])) he]
    rfl

/-- Helper: an offset strictly inside a contiguous chain is resolved by
findChapterIdx to a chapter that starts at or before it and ends beyond
it. -/
theorem findChapterIdx_mem (cs : List Chapter) :
    ∀ s o : Int, chaptersContiguousFrom s cs → s ≤ o → o < chaptersEnd s cs →
      ∃ i, findChapterIdx cs o = some i ∧ i < cs.length
        ∧ (cs.getD i defaultChapter).offset ≤ o
        ∧ o < (cs.getD i defaultChapter).offset + (cs.getD i defaultChapter).length := by
  induction cs with
  | nil =>
    intro s o _ hso ho
    simp only [chaptersEnd] at ho
    omega
  | cons c cs ih =>
    intro s o hc hso ho
    obtain ⟨hoff, hc'⟩ := hc
    simp only [chaptersEnd] at ho
    by_cases hin : o < c.offset + c.length
    · refine ⟨0, ?_, ?_, ?_, ?_⟩
      · simp [findChapterIdx, hin]
      · simp
      · simpa [List.getD_cons_zero] using hoff ▸ hso
      · simpa [List.getD_cons_zero] using hin
    · have h2 : c.offset + c.length ≤ o := not_lt.mp hin
      have hso' : s + c.length ≤ o := by omega
      obtain ⟨i, hf, hl, hlo, hhi⟩ := ih (s + c.length) o hc' hso' ho
      refine ⟨i + 1, ?_, ?_, ?_, ?_⟩
      · simp [findChapterIdx, hin, hf]
      · simpa using Nat.succ_lt_succ hl
      · simpa [List.getD_cons_succ] using hlo
      · simpa [List.getD_cons_succ] using hhi

/-- C1: on a book whose chapters satisfy the contiguity invariant
(first chapter at offset 0, each chapter starting where the previous ends,
totalCharacters equal to the end of the last chapter), converting any
absolute offset 0 <= o < totalCharacters to a position and back is the
identity. -/
theorem positionToOffset_offsetToPosition_roundtrip (book : Book)
    (hne : book.chapters ≠ [])
    (hcont : chaptersContiguousFrom 0 book.chapters)
    (htot : book.totalCharacters = chaptersEnd 0 book.chapters)
    (o : Int) (h0 : 0 ≤ o) (hlt : o < book.totalCharacters) :
    positionToAbsoluteOffset book (absoluteOffsetToPosition book o) = o := by
  obtain ⟨c, cs, hcs⟩ := List.exists_cons_of_ne_nil hne
  have hoff : c.offset = 0 := by rw [hcs] at hcont; exact hcont.1
  have hlen : 0 < book.chapters.length := by rw [hcs]; exact Nat.succ_pos _
  rcases eq_or_lt_of_le h0 with h | hpos
  · have ho : o = 0 := h.symm
    subst ho
    have habs : absoluteOffsetToPosition book 0 = ⟨0, 0⟩ := by
      simp [absoluteOffsetToPosition]
    rw [habs, positionToAbsoluteOffset]
    have hcond : ¬((0 : Int) < 0 ∨ (book.chapters.length : Int) ≤ (0 : Int)) := by
      push_neg
      exact ⟨le_refl 0, by exact_mod_cast hlen⟩
    rw [if_neg hcond, hcs]
    simp [List.getD_cons_zero, hoff]
  · obtain ⟨i, hf, hl, hlo, hhi⟩ :=
      findChapterIdx_mem book.chapters 0 o hcont (le_of_lt hpos) (htot ▸ hlt)
    have hemp : book.chapters.isEmpty = false := by rw [hcs]; rfl
    have habs : absoluteOffsetToPosition book o
        = ⟨(i : Int), o - (book.chapters.getD i defaultChapter).offset⟩ := by
      rw [absoluteOffsetToPosition, if_neg (by omega : ¬ o ≤ 0)]
      simp only [hemp, Bool.false_eq_true, if_false, hf, Option.getD_some]
      rw [if_neg (not_lt.mpr hlo), if_neg (by omega)]
    rw [habs, positionToAbsoluteOffset]
    have hcond : ¬((i : Int) < 0 ∨ (book.chapters.length : Int) ≤ (i : Int)) := by
      push_neg
      exact ⟨by exact_mod_cast Nat.zero_le i, by exact_mod_cast hl⟩
    rw [if_neg hcond]
    simp only [Int.toNat_natCast]
    omega

/-- C10: on a book with a non-empty contiguous chapter list (nonnegative
lengths, totalCharacters at the end of the last chapter), any absolute
offset at or past totalCharacters resolves to chapter 0 with offsetInChapter
equal to the offset itself, which may exceed the first chapter's length. -/
theorem absoluteOffsetToPosition_past_end (book : Book)
    (hne : book.chapters ≠ [])
    (hcont : chaptersContiguousFrom 0 book.chapters)
    (htot : book.totalCharacters = chaptersEnd 0 book.chapters)
    (hlens : ∀ c ∈ book.chapters, 0 ≤ c.length)
    (o : Int) (ho : book.totalCharacters ≤ o) :
    absoluteOffsetToPosition book o = ⟨0, o⟩ := by
  have htotnn : 0 ≤ book.totalCharacters := htot ▸ chaptersEnd_ge book.chapters 0 hlens
  obtain ⟨c, cs, hcs⟩ := List.exists_cons_of_ne_nil hne
  have hoff : c.offset = 0 := by rw [hcs] at hcont; exact hcont.1
  by_cases hle : o ≤ 0
  · have ho0 : o = 0 := le_antisymm hle (le_trans htotnn ho)
    subst ho0
    simp [absoluteOffsetToPosition]
  · have hemp : book.chapters.isEmpty = false := by rw [hcs]; rfl
    have hfind : findChapterIdx book.chapters o = none :=
      findChapterIdx_eq_none book.chapters 0 o hcont hlens (by omega)
    rw [absoluteOffsetToPosition, if_neg hle]
    simp only [hemp, Bool.false_eq_true, if_false, hfind, Option.getD_none]
    rw [hcs]
    simp only [List.getD_cons_zero, hoff]
    rw [if_neg (by omega : ¬ o < (0 : Int))]
    rw [if_neg (by omega : ¬ o - 0 < (0 : Int))]
    simp

/-- C4 amended: positionToAbsoluteOffset returns the chapter's offset plus
the position's offsetInChapter unchanged (no clamping of offsetInChapter)
when chapterIndex is in range, and 0 when chapterIndex is negative or out of
range. -/
theorem positionToAbsoluteOffset_characterization (book : Book) (pos : Position) :
    ((pos.chapterIndex < 0 ∨ (book.chapters.length : Int) ≤ pos.chapterIndex) →
      positionToAbsoluteOffset book pos = 0)
    ∧ (∀ h : pos.chapterIndex.toNat < book.chapters.length, 0 ≤ pos.chapterIndex →
        positionToAbsoluteOffset book pos
          = (book.chapters.get ⟨pos.chapterIndex.toNat, h⟩).offset + pos.offsetInChapter) := by
  constructor
  · intro h
    rw [positionToAbsoluteOffset, if_pos h]
  · intro h hpos
    have hnn := Int.toNat_of_nonneg hpos
    have hcond : ¬(pos.chapterIndex < 0 ∨ (book.chapters.length : Int) ≤ pos.chapterIndex) := by
      push_neg
      refine ⟨hpos, ?_⟩
      have : (pos.chapterIndex.toNat : Int) < (book.chapters.length : Int) := by
        exact_mod_cast h
      omega
    rw [positionToAbsoluteOffset, if_neg hcond]
    congr 1
    rw [List.getD_eq_getElem?_getD, List.getElem?_eq_getElem h]
    rfl

/-- C4 witness: the in-range branch of the characterization, applied to the
single-chapter book at position {0, 10}. -/
theorem positionToAbsoluteOffset_characterization_witness :
    (0 : Int).toNat < oneChapterBook.chapters.length
    ∧ (0 : Int) ≤ 0
    ∧ positionToAbsoluteOffset oneChapterBook ⟨0, 10⟩
        = (oneChapterBook.chapters.get ⟨(0 : Int).toNat, by decide⟩).offset + 10 :=
  ⟨by decide, by decide,
    (positionToAbsoluteOffset_characterization oneChapterBook ⟨0, 10⟩).2 (by decide) (by decide)⟩

/-- C1 witness: the round trip applied to the two-chapter sample book at
offset 4. -/
theorem positionToOffset_offsetToPosition_roundtrip_witness :
    sampleBook.chapters ≠ []
    ∧ chaptersContiguousFrom 0 sampleBook.chapters
    ∧ sampleBook.totalCharacters = chaptersEnd 0 sampleBook.chapters
    ∧ (0 : Int) ≤ 4 ∧ (4 : Int) < sampleBook.totalCharacters
    ∧ positionToAbsoluteOffset sampleBook (absoluteOffsetToPosition sampleBook 4) = 4 :=
  ⟨by decide, by norm_num [sampleBook, chaptersContiguousFrom], by decide, by decide, by decide,
    positionToOffset_offsetToPosition_roundtrip sampleBook (by decide)
      (by norm_num [sampleBook, chaptersContiguousFrom]) (by decide) 4 (by decide) (by decide)⟩

/-- C10 witness: the past-the-end conversion applied to the sample book at
offset 7, which exceeds totalCharacters 5 (and whose resulting
offsetInChapter 7 exceeds the first chapter's length 3). -/
theorem absoluteOffsetToPosition_past_end_witness :
    sampleBook.chapters ≠ []
    ∧ chaptersContiguousFrom 0 sampleBook.chapters
    ∧ sampleBook.totalCharacters = chaptersEnd 0 sampleBook.chapters
    ∧ (∀ c ∈ sampleBook.chapters, 0 ≤ c.length)
    ∧ sampleBook.totalCharacters ≤ 7
    ∧ absoluteOffsetToPosition sampleBook 7 = ⟨0, 7⟩ :=
  ⟨by decide, by norm_num [sampleBook, chaptersContiguousFrom], by decide, by decide, by decide,
    absoluteOffsetToPosition_past_end sampleBook (by decide)
      (by norm_num [sampleBook, chaptersContiguousFrom]) (by decide) (by decide) 7 (by decide)⟩

/-- C9: wrapping the text "abcdef" (no line-break characters) at inner width
5 produces exactly the lines ["abcde", "f"] with starting offsets [0, 5]. -/
theorem reflowWrappedLines_abcdef :
    reflowWrappedLines runeWidthModel ['a', 'b', 'c', 'd', 'e', 'f'] 5
      = ([['a', 'b', 'c', 'd', 'e'], ['f']], [0, 5]) := by
  decide

/-- C3: evaluation of jumpToPosition at a target beyond every wrapped-line
starting offset.  The target position has absolute offset 7, beyond both
offsets of the table [0, 5]; the code resets the top line to 0 (the first
wrapped line), not to the last wrapped line (index 1) as the spec claims. -/
theorem jumpToPosition_beyond_last_offset_eval :
    positionToAbsoluteOffset oneChapterBook ⟨0, 7⟩ = 7
    ∧ jumpToPosition oneChapterBook [0, 5] 3 ⟨0, 7⟩ = 0
    ∧ ([(0 : Int), 5].length - 1 = 1 ∧ (0 : Nat) ≠ 1) := by
  decide

/-- C4 counterexample: positionToAbsoluteOffset performs no clamping of
offsetInChapter.  On a single-chapter book of length 5, the position
{chapter 0, offsetInChapter 10} maps to offset 10, while the spec's clamped
description yields 5. -/
theorem positionToAbsoluteOffset_no_clamp_counterexample :
    positionToAbsoluteOffset oneChapterBook ⟨0, 10⟩ = 10
    ∧ positionToOffsetClampedSpec oneChapterBook ⟨0, 10⟩ = 5
    ∧ (10 : Int) ≠ 5 := by
  decide

/-- C5 counterexample: a single double-width code point overflows any
narrower target width.  At inner width 1 the CJK ideograph of width 2 is
emitted as a line of display width 2 > 1. -/
theorem reflowWrappedLines_width_counterexample :
    reflowWrappedLines runeWidthModel ['一'] 1 = ([['一']], [0])
    ∧ displayWidth runeWidthModel ['一'] = 2
    ∧ ¬ displayWidth runeWidthModel ['一'] ≤ 1 := by
  decide

/-- C6: evaluation of performSearch on the runes of "é at" searching "at"
from a fresh state.  strings.Index runs over the UTF-8 bytes, so the stored
match offset and the position handed back are computed from byte offset 3,
although the code-point offset of the match is 2. -/
theorem performSearch_byte_offset_eval :
    performSearch accentBook ['é', ' ', 'a', 't'] ⟨[], -1⟩ ['a', 't'] true
      = (⟨['a', 't'], 3⟩, SearchResult.found 3 ⟨0, 3⟩)
    ∧ (3 : Int) ≠ 2 := by
  decide

/-- C7 counterexample: on "the cat sat on the mat", the second search for
"at" (continuing from the first match at offset 5) matches at offset 9
("sat"), not at offset 17 as the spec's worked example states. -/
theorem performSearch_cat_second_match_counterexample :
    catS2.2 = SearchResult.found 9 ⟨0, 9⟩ ∧ (9 : Int) ≠ 17 := by
  decide

/-- C7 amended: the four successive searches for "at" over
"the cat sat on the mat" yield matches at offsets 5 ("cat"), 9 ("sat") and
20 ("mat"), and only the fourth call reports no more matches. -/
theorem performSearch_cat_chain :
    catS1.2 = SearchResult.found 5 ⟨0, 5⟩
    ∧ catS2.2 = SearchResult.found 9 ⟨0, 9⟩
    ∧ catS3.2 = SearchResult.found 20 ⟨0, 20⟩
    ∧ catS4.2 = SearchResult.noMore := by
  decide

/-- Helper: every rune's effective display width is at least 1. -/
theorem one_le_runeDisplayWidth (rw : Char → Int) (r : Char) : 1 ≤ runeDisplayWidth rw r := by
  rw [runeDisplayWidth]
  split_ifs with h
  · exact le_refl 1
  · omega

/-- Helper: display width of a line extended by one rune. -/
theorem displayWidth_append_singleton (rw : Char → Int) (l : List Char) (r : Char) :
    displayWidth rw (l ++ [r]) = displayWidth rw l + runeDisplayWidth rw r := by
  simp [displayWidth]

/-- Helper: only the empty line has display width 0. -/
theorem eq_nil_of_displayWidth_eq_zero (rw : Char → Int) (l : List Char)
    (h : displayWidth rw l = 0) : l = [] := by
  cases l with
  | nil => rfl
  | cons x t =>
    exfalso
    have h1 := one_le_runeDisplayWidth rw x
    simp only [displayWidth, List.map_cons, List.sum_cons] at h
    omega

/-- Helper: appending one element at or above every element of a sorted list
keeps it sorted. -/
theorem sorted_append_singleton (l : List Nat) (a : Nat)
    (hl : List.Sorted (fun x y : Nat => x ≤ y) l) (ha : ∀ x ∈ l, x ≤ a) :
    List.Sorted (fun x y : Nat => x ≤ y) (l ++ [a]) := by
  refine List.pairwise_append.mpr ⟨hl, List.pairwise_singleton _ _, ?_⟩
  intro x hx y hy
  have hya : y = a := by simpa using hy
  subst hya
  exact ha x hx

/-- Helper: the loop invariant holds for the initial wrap state. -/
theorem wrapInv_init (W : Nat) (rw : Char → Int) : WrapInv W rw [] initWrapState := by
  refine ⟨?_, ?_, ?_, ?_, ?_, ?_, ?_, ?_, ?_⟩ <;>
    simp [initWrapState, displayWidth]

/-- Helper: one iteration of the reflowWrappedLines rune loop preserves the
loop invariant. -/
theorem wrapInv_step (W : Nat) (rw : Char → Int) (consumed : List Char) (st : WrapState)
    (r : Char) (h : WrapInv W rw consumed st) :
    WrapInv W rw (consumed ++ [r]) (wrapStep W rw st r) := by
  obtain ⟨h1, h2, h3, h4, h5, h6, h7, h8, h9⟩ := h
  have hlines : ∀ l ∈ st.lines ++ [st.lineRunes], displayWidth rw l ≤ W ∨ l.length = 1 := by
    intro l hl
    rcases List.mem_append.mp hl with hl | hl
    · exact h9 l hl
    · have : l = st.lineRunes := by simpa using hl
      subst this
      rcases h8 with h8 | h8
      · exact Or.inl (by omega)
      · exact Or.inr h8
  by_cases hr : r = '\n'
  · subst hr
    have hstep : wrapStep W rw st '\n'
        = ⟨st.lines ++ [st.lineRunes], st.offsets ++ [st.lineStartOffset], [], 0,
           st.currentOffset + 1, st.currentOffset + 1⟩ := by
      simp [wrapStep, flushLine]
    rw [hstep]
    simp only [WrapInv]
    refine ⟨?_, ?_, ?_, ?_, ?_, ?_, ?_, ?_, ?_⟩
    · simpa [List.filter_append] using h1
    · simp [h2]
    · exact sorted_append_singleton _ _ h3 h4
    · intro x hx
      rcases List.mem_append.mp hx with hx | hx
      · have := h4 x hx
        omega
      · have : x = st.lineStartOffset := by simpa using hx
        omega
    · omega
    · simp [h6]
    · simp [displayWidth]
    · exact Or.inl (Nat.zero_le W)
    · exact hlines
  · have hfil : (consumed ++ [r]).filter (fun x => decide (x ≠ '\n'))
        = consumed.filter (fun x => decide (x ≠ '\n')) ++ [r] := by
      simp [List.filter_append, hr]
    by_cases ho : 0 < st.col ∧ W < st.col + runeDisplayWidth rw r
    · have hstep : wrapStep W rw st r
          = ⟨st.lines ++ [st.lineRunes], st.offsets ++ [st.lineStartOffset], [r],
             runeDisplayWidth rw r, st.currentOffset, st.currentOffset + 1⟩ := by
        simp [wrapStep, flushLine, hr, ho]
      rw [hstep]
      simp only [WrapInv]
      refine ⟨?_, ?_, ?_, ?_, ?_, ?_, ?_, ?_, ?_⟩
      · rw [hfil, ← h1]
        simp
      · simp [h2]
      · exact sorted_append_singleton _ _ h3 h4
      · intro x hx
        rcases List.mem_append.mp hx with hx | hx
        · have := h4 x hx
          omega
        · have : x = st.lineStartOffset := by simpa using hx
          omega
      · omega
      · simp [h6]
      · simp [displayWidth]
      · exact Or.inr rfl
      · exact hlines
    · have hstep : wrapStep W rw st r
          = ⟨st.lines, st.offsets, st.lineRunes ++ [r], st.col + runeDisplayWidth rw r,
             st.lineStartOffset, st.currentOffset + 1⟩ := by
        simp [wrapStep, hr, ho]
      rw [hstep]
      simp only [WrapInv]
      refine ⟨?_, ?_, ?_, ?_, ?_, ?_, ?_, ?_, ?_⟩
      · rw [hfil, ← h1]
        simp
      · exact h2
      · exact h3
      · exact h4
      · omega
      · simp [h6]
      · rw [displayWidth_append_singleton, h7]
      · rcases Nat.eq_zero_or_pos st.col with hc | hc
        · have hnil : st.lineRunes = [] :=
            eq_nil_of_displayWidth_eq_zero rw st.lineRunes (by omega)
          exact Or.inr (by simp [hnil])
        · have hle : st.col + runeDisplayWidth rw r ≤ W := by
            rcases not_and_or.mp ho with hco | hco
            · omega
            · omega
          exact Or.inl hle
      · exact h9

/-- Helper: the loop invariant is preserved across the whole rune loop. -/
theorem wrapInv_foldl (W : Nat) (rw : Char → Int) :
    ∀ (text consumed : List Char) (st : WrapState), WrapInv W rw consumed st →
      WrapInv W rw (consumed ++ text) (text.foldl (wrapStep W rw) st) := by
  intro text
  induction text with
  | nil => intro consumed st h; simpa using h
  | cons r t ih =>
    intro consumed st h
    have h2 := ih (consumed ++ [r]) (wrapStep W rw st r) (wrapInv_step W rw consumed st r h)
    rw [List.append_assoc] at h2
    simpa using h2

/-- C2: for every text and every positive inner width, the wrap engine
returns as many offsets as lines, the line starting offsets are
non-decreasing, and the concatenation of all lines reproduces the text with
exactly the newline characters removed. -/
theorem reflowWrappedLines_reconstruction (rw : Char → Int) (text : List Char) (W : Nat)
    (hW : 0 < W) :
    (reflowWrappedLines rw text W).2.length = (reflowWrappedLines rw text W).1.length
    ∧ List.Sorted (fun a b : Nat => a ≤ b) (reflowWrappedLines rw text W).2
    ∧ (reflowWrappedLines rw text W).1.flatten
        = text.filter (fun r => decide (r ≠ '\n')) := by
  by_cases ht : text = []
  · subst ht
    simp [reflowWrappedLines]
  · have hguard : ¬(text = [] ∨ W = 0) := by
      push_neg
      exact ⟨ht, by omega⟩
    rw [reflowWrappedLines, if_neg hguard, finishWrap]
    obtain ⟨h1, h2, h3, h4, h5, h6, h7, h8, h9⟩ := by
      simpa using wrapInv_foldl W rw text [] initWrapState (wrapInv_init W rw)
    split_ifs with hlr
    · rw [hlr, List.append_nil] at h1
      exact ⟨h2, h3, h1⟩
    · refine ⟨?_, ?_, ?_⟩
      · simp [flushLine, h2]
      · simpa [flushLine] using sorted_append_singleton _ _ h3 h4
      · simpa [flushLine] using h1

/-- C2 witness: the reconstruction properties at a concrete text containing
a newline, at inner width 1. -/
theorem reflowWrappedLines_reconstruction_witness :
    0 < 1
    ∧ ((reflowWrappedLines runeWidthModel ['a', 'b', '\n', 'c'] 1).2.length
        = (reflowWrappedLines runeWidthModel ['a', 'b', '\n', 'c'] 1).1.length
      ∧ List.Sorted (fun a b : Nat => a ≤ b)
          (reflowWrappedLines runeWidthModel ['a', 'b', '\n', 'c'] 1).2
      ∧ (reflowWrappedLines runeWidthModel ['a', 'b', '\n', 'c'] 1).1.flatten
          = ['a', 'b', '\n', 'c'].filter (fun r => decide (r ≠ '\n'))) :=
  ⟨by decide, reflowWrappedLines_reconstruction runeWidthModel ['a', 'b', '\n', 'c'] 1 (by decide)⟩

/-- C5 amended: for every text and every positive inner width, every
returned line either has display width at most the width, or consists of a
single code point (whose own effective width then exceeds the width). -/
theorem reflowWrappedLines_width_bound (rw : Char → Int) (text : List Char) (W : Nat)
    (hW : 0 < W) :
    ∀ l ∈ (reflowWrappedLines rw text W).1, displayWidth rw l ≤ W ∨ l.length = 1 := by
  by_cases ht : text = []
  · subst ht
    simp [reflowWrappedLines]
  · have hguard : ¬(text = [] ∨ W = 0) := by
      push_neg
      exact ⟨ht, by omega⟩
    rw [reflowWrappedLines, if_neg hguard, finishWrap]
    obtain ⟨h1, h2, h3, h4, h5, h6, h7, h8, h9⟩ := by
      simpa using wrapInv_foldl W rw text [] initWrapState (wrapInv_init W rw)
    split_ifs with hlr
    · exact h9
    · intro l hl
      have hl2 : l ∈ (text.foldl (wrapStep W rw) initWrapState).lines
          ∨ l = (text.foldl (wrapStep W rw) initWrapState).lineRunes := by
        simpa [flushLine] using hl
      rcases hl2 with hl2 | hl2
      · exact h9 l hl2
      · subst hl2
        rcases h8 with h8 | h8
        · exact Or.inl (by omega)
        · exact Or.inr h8

/-- C5 witness: the width bound applied to the line "ab" produced by
wrapping "abc" at inner width 2. -/
theorem reflowWrappedLines_width_bound_witness :
    0 < 2
    ∧ ['a', 'b'] ∈ (reflowWrappedLines runeWidthModel ['a', 'b', 'c'] 2).1
    ∧ (displayWidth runeWidthModel ['a', 'b'] ≤ 2 ∨ ([('a' : Char), 'b'].length = 1)) :=
  ⟨by decide, by decide,
    reflowWrappedLines_width_bound runeWidthModel ['a', 'b', 'c'] 2 (by decide)
      ['a', 'b'] (by decide)⟩

/-- Helper: the reset step never lowers the match offset below -1. -/
theorem neg_one_le_resetSearchState (st : SearchState) (term : List Char) (newTerm : Bool)
    (h : -1 ≤ st.lastSearchOffset) :
    -1 ≤ (resetSearchState st term newTerm).lastSearchOffset := by
  rw [resetSearchState]
  split_ifs with h1
  · exact le_refl (-1)
  · exact h

/-- C8 amended: on any failed search with a non-empty term (from a state
whose match offset is at least -1, as the code maintains), the resulting
state equals the post-reset state, so the scan itself changes nothing; the
"no matches" wording occurs only when no previous match existed, and the
"no more matches" wording only when a previous match existed or when the
starting point is already at or past the end of the text (in which case it
is reported even without a previous match). -/
theorem performSearch_failure_state_and_messages (book : Book) (text : List Char)
    (st : SearchState) (term : List Char) (newTerm : Bool)
    (hterm : term ≠ []) (hst : -1 ≤ st.lastSearchOffset) :
    ((performSearch book text st term newTerm).2 = SearchResult.noMatches ∨
        (performSearch book text st term newTerm).2 = SearchResult.noMore →
      (performSearch book text st term newTerm).1 = resetSearchState st term newTerm)
    ∧ ((performSearch book text st term newTerm).2 = SearchResult.noMatches →
        (resetSearchState st term newTerm).lastSearchOffset = -1)
    ∧ ((performSearch book text st term newTerm).2 = SearchResult.noMore →
        0 ≤ (resetSearchState st term newTerm).lastSearchOffset
        ∨ ((utf8Encode text).length : Int)
            ≤ (resetSearchState st term newTerm).lastSearchOffset + 1) := by
  have hst1 := neg_one_le_resetSearchState st term newTerm hst
  rw [performSearch, if_neg hterm]
  simp only []
  rw [if_neg (by omega : ¬ (resetSearchState st term newTerm).lastSearchOffset + 1 < 0)]
  by_cases hpast : ((utf8Encode text).length : Int)
      ≤ (resetSearchState st term newTerm).lastSearchOffset + 1
  · rw [if_pos hpast]
    exact ⟨fun _ => rfl, fun hc => by simp at hc, fun _ => Or.inr hpast⟩
  · rw [if_neg hpast]
    cases hidx : strIndex
        ((utf8Encode text).drop ((resetSearchState st term newTerm).lastSearchOffset + 1).toNat)
        (utf8Encode term) with
    | none =>
      by_cases hprev : (resetSearchState st term newTerm).lastSearchOffset = -1
      · rw [if_pos hprev]
        exact ⟨fun _ => rfl, fun _ => hprev, fun hc => by simp at hc⟩
      · rw [if_neg hprev]
        exact ⟨fun _ => rfl, fun hc => by simp at hc, fun _ => Or.inl (by omega)⟩
    | some idx =>
      refine ⟨?_, ?_, ?_⟩ <;> intro hc <;> simp at hc

/-- C8 witness: a failing fresh search ("z" over "abc") reaches the
"no matches" outcome with the state exactly the post-reset state. -/
theorem performSearch_failure_state_and_messages_witness :
    (['z'] : List Char) ≠ []
    ∧ (-1 : Int) ≤ (⟨[], -1⟩ : SearchState).lastSearchOffset
    ∧ (((performSearch oneChapterBook ['a', 'b', 'c'] ⟨[], -1⟩ ['z'] true).2
          = SearchResult.noMatches ∨
        (performSearch oneChapterBook ['a', 'b', 'c'] ⟨[], -1⟩ ['z'] true).2
          = SearchResult.noMore →
        (performSearch oneChapterBook ['a', 'b', 'c'] ⟨[], -1⟩ ['z'] true).1
          = resetSearchState ⟨[], -1⟩ ['z'] true)
      ∧ ((performSearch oneChapterBook ['a', 'b', 'c'] ⟨[], -1⟩ ['z'] true).2
            = SearchResult.noMatches →
          (resetSearchState ⟨[], -1⟩ ['z'] true).lastSearchOffset = -1)
      ∧ ((performSearch oneChapterBook ['a', 'b', 'c'] ⟨[], -1⟩ ['z'] true).2
            = SearchResult.noMore →
          0 ≤ (resetSearchState ⟨[], -1⟩ ['z'] true).lastSearchOffset
          ∨ ((utf8Encode ['a', 'b', 'c']).length : Int)
              ≤ (resetSearchState ⟨[], -1⟩ ['z'] true).lastSearchOffset + 1)) :=
  ⟨by decide, by decide,
    performSearch_failure_state_and_messages oneChapterBook ['a', 'b', 'c'] ⟨[], -1⟩ ['z'] true
      (by decide) (by decide)⟩

/-- C8 counterexample: a fresh search over empty text has no previous match
(lastSearchOffset is -1 after the reset), yet the code reports the
"no more matches" wording rather than "no matches". -/
theorem performSearch_empty_text_message_counterexample :
    performSearch emptyBook [] ⟨[], -1⟩ ['a'] true = (⟨['a'], -1⟩, SearchResult.noMore)
    ∧ statusText SearchResult.noMore = "Find: no more matches."
    ∧ statusText SearchResult.noMore ≠ statusText SearchResult.noMatches := by
  decide

end Thuja
